import Mathlib

/-!
# muda: launch geometry (`ParallelFor`) and field-entry windows (`FieldEntryViewCore`)

A shallow embedding of

* `src/muda/launch/parallel_for.h` (the three `ParallelFor` constructors and
  `ParallelFor::round_up_blocks`), and
* `src/muda/ext/field/field_entry_view.h` (`FieldEntryViewCore`: constructor
  with its bounds assertion, the three `data` accessors, the observers,
  `viewer()` / `cviewer()`, and the `read_only_viewer` / `read_write_viewer`
  specialisations).

C++ `int` is modelled as `Int` together with an explicit two's-complement
reduction `wrap_int` after every `+` and `-`, and `/` is truncating division.
-/

namespace muda

/-! ## 32-bit `int` arithmetic -/

/-- Smallest value of a C++ `int` (32 bit). -/
def INT_MIN : Int := -2147483648

/-- Largest value of a C++ `int` (32 bit). -/
def INT_MAX : Int := 2147483647

/-- The values a C++ `int` can hold. -/
def is_int (x : Int) : Prop := INT_MIN ≤ x ∧ x ≤ INT_MAX

instance (x : Int) : Decidable (is_int x) := by
  unfold is_int; exact inferInstance

/-- Two's-complement reduction of a mathematical integer to the `int` range. -/
def wrap_int (x : Int) : Int := (x + 2147483648) % 4294967296 - 2147483648

/-- The C++ expression `a + b` on `int` operands. -/
def int_add (a b : Int) : Int := wrap_int (a + b)

/-- The C++ expression `a - b` on `int` operands. -/
def int_sub (a b : Int) : Int := wrap_int (a - b)

/-- The C++ expression `a / b` on `int` operands: the quotient truncated towards zero
(`b = 0` has no defined result in C++; `Int.tdiv` returns `0` there). -/
def int_div (a b : Int) : Int := wrap_int (Int.tdiv a b)

/-! ## `ParallelFor` -/

/-- The members of `class ParallelFor` that its constructors initialise: `m_grid_dim`,
`m_block_dim`, `m_shared_mem_size`, and the stream handed to the `LaunchBase` base
(a `cudaStream_t` handle, `0` standing for `nullptr`). -/
structure ParallelFor where
  m_grid_dim : Int
  m_block_dim : Int
  m_shared_mem_size : Nat
  m_stream : Nat
  deriving DecidableEq, Repr

namespace ParallelFor

/-- The constructor `ParallelFor(size_t shared_mem_size = 0, cudaStream_t stream = nullptr)`:
grid dim `0`, block dim `-1`. -/
def ctor_auto (shared_mem_size : Nat) (stream : Nat) : ParallelFor :=
  { m_grid_dim := 0, m_block_dim := -1, m_shared_mem_size := shared_mem_size, m_stream := stream }

/-- The constructor `ParallelFor(int blockDim, size_t shared_mem_size = 0,
cudaStream_t stream = nullptr)`: grid dim `0`, block dim as given. -/
def ctor_block (blockDim : Int) (shared_mem_size : Nat) (stream : Nat) : ParallelFor :=
  { m_grid_dim := 0, m_block_dim := blockDim, m_shared_mem_size := shared_mem_size,
    m_stream := stream }

/-- The constructor `ParallelFor(int gridDim, int blockDim, size_t shared_mem_size = 0,
cudaStream_t stream = nullptr)`: both dims as given. -/
def ctor_grid_block (gridDim blockDim : Int) (shared_mem_size : Nat) (stream : Nat) :
    ParallelFor :=
  { m_grid_dim := gridDim, m_block_dim := blockDim, m_shared_mem_size := shared_mem_size,
    m_stream := stream }

/-- The static member `round_up_blocks`: `return (count + block_dim - 1) / block_dim;`,
every operation in `int`. -/
def round_up_blocks (count block_dim : Int) : Int :=
  int_div (int_sub (int_add count block_dim) 1) block_dim

end ParallelFor

/-- Modelled from the spec: the body of `details::parallel_for_kernel` (declared in
`parallel_for.h`, defined in `details/parallel_for.inl`, which is not among the
sources).  Exact-cover mode: "a thread whose global id ≥ count performs no work";
otherwise the callable is invoked once with the global id as logical index.  The
result lists the logical indices this one thread passes to the callable. -/
def parallel_for_kernel (count : Int) (blockDim blockIdx threadIdx : Nat) : List Int :=
  let i : Int := ((blockDim * blockIdx + threadIdx : Nat) : Int)
  if i < count then [i] else []

/-- Modelled from the spec: a launch of `gridDim` blocks of `blockDim` threads running
`parallel_for_kernel`; a non-positive dimension launches no thread.  The result lists
every logical index passed to the callable, one entry per invocation. -/
def launch_parallel_for_kernel (gridDim blockDim count : Int) : List Int :=
  (List.range gridDim.toNat).flatMap fun blockIdx =>
    (List.range blockDim.toNat).flatMap fun threadIdx =>
      parallel_for_kernel count blockDim.toNat blockIdx threadIdx

/-- Modelled from the spec: exact-cover dispatch with a given block size, "grid size =
`ceil(count / blockSize)`", the grid size being computed by `round_up_blocks`. -/
def exact_cover_invocations (count block_dim : Int) : List Int :=
  launch_parallel_for_kernel (ParallelFor.round_up_blocks count block_dim) block_dim count

/-! ## `FieldEntryViewCore` -/

/-- Modelled from the spec: `FieldEntryCore` (declared in `field_entry_core.h`, which is
not among the sources) as far as `FieldEntryViewCore` uses it: the record count
`count()` and the three overloads of the address computation `data<T, Layout>`,
for a record index, a record index with a component index, and a record index with a
row and a column index.  Addresses are byte addresses. -/
structure FieldEntryCore where
  count : Int
  data_i : Int → Nat
  data_i_j : Int → Int → Nat
  data_i_row_col : Int → Int → Int → Nat

/-- Modelled from the spec: the two viewer classes of `field_entry_viewer.h` (not among
the sources), `FieldEntryViewer<T, Layout, M, N>` (mutable) and
`CFieldEntryViewer<T, Layout, M, N>` (read-only), each brace-initialised from
`{core, offset, size}`; "differ only by compile-time capability tag". -/
inductive Viewer where
  | FieldEntryViewer (core : FieldEntryCore) (offset size : Int)
  | CFieldEntryViewer (core : FieldEntryCore) (offset size : Int)

namespace Viewer

/-- Whether the viewer is the mutable class `FieldEntryViewer`. -/
def is_mutable : Viewer → Bool
  | FieldEntryViewer _ _ _ => true
  | CFieldEntryViewer _ _ _ => false

/-- Whether the viewer is the read-only class `CFieldEntryViewer`. -/
def is_read_only : Viewer → Bool
  | FieldEntryViewer _ _ _ => false
  | CFieldEntryViewer _ _ _ => true

/-- The core a viewer was built from. -/
def core : Viewer → FieldEntryCore
  | FieldEntryViewer c _ _ => c
  | CFieldEntryViewer c _ _ => c

/-- The offset a viewer was built from. -/
def offset : Viewer → Int
  | FieldEntryViewer _ o _ => o
  | CFieldEntryViewer _ o _ => o

/-- The size a viewer was built from. -/
def size : Viewer → Int
  | FieldEntryViewer _ _ s => s
  | CFieldEntryViewer _ _ s => s

end Viewer

/-- The data members of `FieldEntryViewCore<IsConst, T, Layout, M, N>`: `m_core`,
`m_offset`, `m_size`.  `IsConst` is the template's capability parameter. -/
structure FieldEntryViewCore (IsConst : Bool) where
  m_core : FieldEntryCore
  m_offset : Int
  m_size : Int

/-- The arguments of the failed `MUDA_KERNEL_ASSERT` of the constructor, as its message
"(offset,size) is out of range, offset=%d, size=%d, count=%d" reports them. -/
structure OutOfRange where
  offset : Int
  size : Int
  count : Int
  deriving DecidableEq, Repr

namespace FieldEntryViewCore

/-- The condition the constructor asserts:
`offset >= 0 && size >= 0 && offset + size <= core.count()`, the sum taken in `int`. -/
def ctor_condition (core : FieldEntryCore) (offset size : Int) : Bool :=
  decide (offset ≥ 0) && decide (size ≥ 0) && decide (int_add offset size ≤ core.count)

/-- The constructor `FieldEntryViewCore(const FieldEntryCore& core, int offset, int size)`:
the members are initialised from the arguments and the condition is asserted.
`MUDA_KERNEL_ASSERT` (a macro that is not among the sources) is taken, as the spec
describes it, to end construction with a fatal bounds error when the condition is
false. -/
def ctor (IsConst : Bool) (core : FieldEntryCore) (offset size : Int) :
    Except OutOfRange (FieldEntryViewCore IsConst) :=
  if ctor_condition core offset size then
    .ok { m_core := core, m_offset := offset, m_size := size }
  else
    .error { offset := offset, size := size, count := core.count }

variable {IsConst : Bool}

/-- The accessor `data(int i)`: `m_core.data<T, Layout>(m_offset + i)`. -/
def data_i (v : FieldEntryViewCore IsConst) (i : Int) : Nat :=
  v.m_core.data_i (int_add v.m_offset i)

/-- The accessor `data(int i, int j)`: `m_core.data<T, Layout>(m_offset + i, j)`. -/
def data_i_j (v : FieldEntryViewCore IsConst) (i j : Int) : Nat :=
  v.m_core.data_i_j (int_add v.m_offset i) j

/-- The accessor `data(int i, int row_index, int col_index)`:
`m_core.data<T, Layout>(m_offset + i, row_index, col_index)`. -/
def data_i_row_col (v : FieldEntryViewCore IsConst) (i row_index col_index : Int) : Nat :=
  v.m_core.data_i_row_col (int_add v.m_offset i) row_index col_index

/-- The observer `offset()`. -/
def offset (v : FieldEntryViewCore IsConst) : Int := v.m_offset

/-- The observer `size()`. -/
def size (v : FieldEntryViewCore IsConst) : Int := v.m_size

/-- The observer `total_count()`: `m_core.count()`. -/
def total_count (v : FieldEntryViewCore IsConst) : Int := v.m_core.count

/-- The member `viewer()`: `ThisViewer{m_core, offset(), size()}`, where `ThisViewer` is
`std::conditional_t<IsConst, ConstViewer, NonConstViewer>`. -/
def viewer (v : FieldEntryViewCore IsConst) : Viewer :=
  if IsConst then Viewer.CFieldEntryViewer v.m_core v.offset v.size
  else Viewer.FieldEntryViewer v.m_core v.offset v.size

/-- The member `cviewer()`: `ConstViewer{m_core, offset(), size()}`. -/
def cviewer (v : FieldEntryViewCore IsConst) : Viewer :=
  Viewer.CFieldEntryViewer v.m_core v.offset v.size

/-- The window invariant of the data model: `0 <= offset`, `0 <= size`,
`offset + size <= core.count()`, the sum being the mathematical one. -/
def in_range (v : FieldEntryViewCore IsConst) : Prop :=
  0 ≤ v.m_offset ∧ 0 ≤ v.m_size ∧ v.m_offset + v.m_size ≤ v.m_core.count

instance (v : FieldEntryViewCore IsConst) : Decidable v.in_range := by
  unfold in_range; exact inferInstance

end FieldEntryViewCore

/-- A sample core descriptor for concrete instances: `count` records of `float`
(4 bytes) stored from address 0 with every record contiguous, a scalar record at
`4 * i`, component `j` of a 3-vector record at `4 * (3 * i + j)`, and entry
`(row, col)` of a 3x3-matrix record at `4 * (9 * i + 3 * row + col)`. -/
def sample_core (count : Int) : FieldEntryCore :=
  { count := count
    data_i := fun i => (4 * i).toNat
    data_i_j := fun i j => (4 * (3 * i + j)).toNat
    data_i_row_col := fun i row col => (4 * (9 * i + 3 * row + col)).toNat }

/-! ## `read_only_viewer` / `read_write_viewer` -/

/-- The two view class templates the trait specialisations range over, as type
expressions: `FieldEntryView<T, Layout, M, N>` and `CFieldEntryView<T, Layout, M, N>`.
`T` names the element type and `L` is the enumeration `FieldEntryLayout`. -/
inductive ViewType (T L : Type) where
  | FieldEntryView (t : T) (Layout : L) (M N : Int)
  | CFieldEntryView (t : T) (Layout : L) (M N : Int)
  deriving DecidableEq, Repr

/-- The trait `read_only_viewer<V>::type`.  The specialisation of this header maps
`FieldEntryView<T, Layout, M, N>` to `CFieldEntryView<T, Layout, M, N>`; every other
argument is resolved by the primary template, which is declared elsewhere and taken
as the parameter `primary`. -/
def read_only_viewer {T L : Type} (primary : ViewType T L → ViewType T L) :
    ViewType T L → ViewType T L
  | .FieldEntryView t Layout M N => .CFieldEntryView t Layout M N
  | v => primary v

/-- The trait `read_write_viewer<V>::type`.  The specialisation of this header maps
`CFieldEntryView<T, Layout, M, N>` to `FieldEntryView<T, Layout, M, N>`; every other
argument is resolved by the primary template, taken as the parameter `primary`. -/
def read_write_viewer {T L : Type} (primary : ViewType T L → ViewType T L) :
    ViewType T L → ViewType T L
  | .CFieldEntryView t Layout M N => .FieldEntryView t Layout M N
  | v => primary v

/-! ## Theorems -/

/-! ### 32-bit arithmetic -/

theorem wrap_int_of_is_int {x : Int} (h : is_int x) : wrap_int x = x := by
  unfold is_int INT_MIN INT_MAX at h
  unfold wrap_int
  omega

theorem is_int_wrap_int (x : Int) : is_int (wrap_int x) := by
  unfold is_int INT_MIN INT_MAX wrap_int
  omega

theorem wrap_int_sub_wrap_int (x y : Int) : wrap_int (wrap_int x - y) = wrap_int (x - y) := by
  unfold wrap_int
  omega

theorem wrap_int_eq_iff (x y : Int) :
    wrap_int x = wrap_int y ↔ (x - y) % 4294967296 = 0 := by
  unfold wrap_int
  omega

/-! ### `round_up_blocks` -/

/-- With `count >= 0`, `block_dim >= 1` and `count + block_dim - 1` representable as an
`int`, `round_up_blocks` is the quotient `(count + block_dim - 1) / block_dim` of
natural-number division. -/
theorem round_up_blocks_eq_ediv (count block_dim : Int) (hc : 0 ≤ count)
    (hb : 1 ≤ block_dim) (hsum : count + block_dim - 1 ≤ INT_MAX) :
    ParallelFor.round_up_blocks count block_dim = (count + block_dim - 1) / block_dim := by
  unfold ParallelFor.round_up_blocks int_div int_sub int_add
  have hnum : is_int (count + block_dim - 1) := by
    unfold is_int INT_MIN; unfold INT_MAX at *; omega
  rw [wrap_int_sub_wrap_int, wrap_int_of_is_int hnum,
    Int.tdiv_eq_ediv (by omega) (by omega)]
  apply wrap_int_of_is_int
  have h0 : 0 ≤ (count + block_dim - 1) / block_dim :=
    Int.ediv_nonneg (by omega) (by omega)
  have h1 : (count + block_dim - 1) / block_dim ≤ count + block_dim - 1 :=
    Int.ediv_le_self _ (by omega)
  unfold is_int INT_MIN; unfold INT_MAX at *; omega

/-- With `count >= 0`, `block_dim >= 1` and `count + block_dim - 1` representable as an
`int`, `round_up_blocks(count, block_dim)` is the ceiling of `count / block_dim`. -/
theorem round_up_blocks_eq_ceil (count block_dim : Int) (hc : 0 ≤ count)
    (hb : 1 ≤ block_dim) (hsum : count + block_dim - 1 ≤ INT_MAX) :
    ParallelFor.round_up_blocks count block_dim = ⌈(count : ℚ) / (block_dim : ℚ)⌉ := by
  rw [round_up_blocks_eq_ediv count block_dim hc hb hsum]
  symm
  have hbpos : (0 : ℚ) < (block_dim : ℚ) := by exact_mod_cast (by omega : (0 : Int) < block_dim)
  have hdm := Int.ediv_add_emod (count + block_dim - 1) block_dim
  have hm0 := Int.emod_nonneg (count + block_dim - 1) (by omega : block_dim ≠ 0)
  have hm1 := Int.emod_lt_of_pos (count + block_dim - 1) (by omega : (0 : Int) < block_dim)
  rw [Int.ceil_eq_iff]
  constructor
  · rw [lt_div_iff₀ hbpos]
    have : ((count + block_dim - 1) / block_dim - 1) * block_dim < count := by
      nlinarith
    exact_mod_cast this
  · rw [div_le_iff₀ hbpos]
    have : count ≤ (count + block_dim - 1) / block_dim * block_dim := by
      nlinarith
    exact_mod_cast this

/-- The three sample values: `round_up_blocks(17,4) = 5`, `round_up_blocks(16,4) = 4`,
`round_up_blocks(0,4) = 0`. -/
theorem round_up_blocks_samples :
    ParallelFor.round_up_blocks 17 4 = 5 ∧ ParallelFor.round_up_blocks 16 4 = 4 ∧
      ParallelFor.round_up_blocks 0 4 = 0 := by
  decide

/-- C1, at `count = 2147483647` (`INT_MAX`), `block_dim = 256`: both arguments are `int`
values with `count >= 0` and `block_dim >= 1`, the sum `count + block_dim` leaves the
`int` range, `round_up_blocks` returns `-8388607`, and the ceiling of
`count / block_dim` is `8388608`. -/
theorem round_up_blocks_int_max_256 :
    is_int 2147483647 ∧ is_int 256 ∧ (0 : Int) ≤ 2147483647 ∧ (1 : Int) ≤ 256 ∧
      ParallelFor.round_up_blocks 2147483647 256 = -8388607 ∧
      ⌈((2147483647 : Int) : ℚ) / ((256 : Int) : ℚ)⌉ = 8388608 := by
  refine ⟨by decide, by decide, by decide, by decide, by decide, ?_⟩
  rw [Int.ceil_eq_iff]
  norm_num

/-! ### `FieldEntryViewCore`: construction -/

/-- C2, at `offset = 2147483647` (`INT_MAX`), `size = 1` over a core of 10 records: the
true sum `offset + size = 2147483648` is greater than the count, yet the `int` sum is
`-2147483648`, the asserted condition evaluates to true and construction succeeds, for
either value of `IsConst`. -/
theorem ctor_accepts_int_max_1 :
    is_int 2147483647 ∧ is_int 1 ∧ (2147483647 : Int) + 1 > (sample_core 10).count ∧
      int_add 2147483647 1 = -2147483648 ∧
      FieldEntryViewCore.ctor_condition (sample_core 10) 2147483647 1 = true ∧
      ∀ IsConst : Bool, ∃ v : FieldEntryViewCore IsConst,
        FieldEntryViewCore.ctor IsConst (sample_core 10) 2147483647 1 = Except.ok v := by
  refine ⟨by decide, by decide, by decide, by decide, by decide, fun IsConst => ?_⟩
  exact ⟨⟨sample_core 10, 2147483647, 1⟩, by
    unfold FieldEntryViewCore.ctor
    rw [if_pos (by decide)]⟩

/-- When the sum `offset + size` is representable as an `int`, construction fails with
the bounds violation as soon as `offset < 0`, `size < 0` or `offset + size > count`. -/
theorem ctor_rejects_out_of_range (IsConst : Bool) (core : FieldEntryCore)
    (offset size : Int) (hsum : is_int (offset + size))
    (h : offset < 0 ∨ size < 0 ∨ offset + size > core.count) :
    FieldEntryViewCore.ctor IsConst core offset size =
      Except.error { offset := offset, size := size, count := core.count } := by
  unfold FieldEntryViewCore.ctor
  rw [if_neg]
  unfold FieldEntryViewCore.ctor_condition int_add
  rw [wrap_int_of_is_int hsum]
  simp only [ge_iff_le, Bool.and_eq_true, decide_eq_true_eq, not_and, not_le]
  omega

/-- C3: for a core whose record count is an `int`, and `0 <= offset`, `0 <= size`,
`offset + size <= count`, the constructor succeeds, and the window it builds has
`size() == size`, `offset() == offset` and `total_count() == count`. -/
theorem ctor_ok_of_in_range (IsConst : Bool) (core : FieldEntryCore) (offset size : Int)
    (hcount : is_int core.count) (ho : 0 ≤ offset) (hs : 0 ≤ size)
    (hsum : offset + size ≤ core.count) :
    ∃ v : FieldEntryViewCore IsConst,
      FieldEntryViewCore.ctor IsConst core offset size = Except.ok v ∧
        v.size = size ∧ v.offset = offset ∧ v.total_count = core.count ∧ v.m_core = core := by
  refine ⟨⟨core, offset, size⟩, ?_, rfl, rfl, rfl, rfl⟩
  unfold FieldEntryViewCore.ctor
  rw [if_pos]
  unfold FieldEntryViewCore.ctor_condition int_add
  have hrep : is_int (offset + size) := by
    unfold is_int INT_MIN INT_MAX at *; omega
  rw [wrap_int_of_is_int hrep]
  simp only [ge_iff_le, Bool.and_eq_true, decide_eq_true_eq]
  omega

/-- A window of 4 records at offset 3 of a 10-record core is constructed, with
`size() == 4`, `offset() == 3`, `total_count() == 10`. -/
theorem ctor_ok_of_in_range_witness :
    is_int (sample_core 10).count ∧ (0 : Int) ≤ 3 ∧ (0 : Int) ≤ 4 ∧
      (3 : Int) + 4 ≤ (sample_core 10).count ∧
      ∃ v : FieldEntryViewCore false,
        FieldEntryViewCore.ctor false (sample_core 10) 3 4 = Except.ok v ∧
          v.size = 4 ∧ v.offset = 3 ∧ v.total_count = (sample_core 10).count ∧
          v.m_core = sample_core 10 :=
  ⟨by decide, by decide, by decide, by decide,
    ctor_ok_of_in_range false (sample_core 10) 3 4 (by decide) (by decide) (by decide)
      (by decide)⟩

/-- C10, on a core of 10 records: the windows `(offset, size) = (2147483647, 1)` and
`(2147483647, 2)` pass the constructor's check as the constructor evaluates it; in the
first, the window-relative index `0` is translated to record `2147483647`, which is not
below `total_count() == 10`; in the second, the sum for index `1` leaves the `int`
range and the translated record index is `-2147483648`. -/
theorem ctor_checked_window_index_out_of_bounds :
    FieldEntryViewCore.ctor_condition (sample_core 10) 2147483647 1 = true ∧
      ((0 : Int) ≤ 0 ∧ (0 : Int) < 1) ∧
      int_add 2147483647 0 = 2147483647 ∧
      ¬ int_add 2147483647 0 < (sample_core 10).count ∧
      FieldEntryViewCore.ctor_condition (sample_core 10) 2147483647 2 = true ∧
      ((0 : Int) ≤ 1 ∧ (1 : Int) < 2) ∧
      ¬ is_int ((2147483647 : Int) + 1) ∧
      int_add 2147483647 1 = -2147483648 := by
  decide

/-- For a window that satisfies the invariant `0 <= offset`, `0 <= size`,
`offset + size <= count` over a core whose count is an `int`, every window-relative
index `0 <= i < size` is translated without overflow to a record index in
`[0, total_count())`. -/
theorem in_range_index_in_bounds {IsConst : Bool} (v : FieldEntryViewCore IsConst)
    (hcount : is_int v.total_count) (hv : v.in_range) (i : Int) (hi0 : 0 ≤ i)
    (hi : i < v.size) :
    is_int (v.m_offset + i) ∧ int_add v.m_offset i = v.m_offset + i ∧
      0 ≤ int_add v.m_offset i ∧ int_add v.m_offset i < v.total_count := by
  unfold FieldEntryViewCore.in_range at hv
  unfold FieldEntryViewCore.total_count at *
  unfold FieldEntryViewCore.size at hi
  have hrep : is_int (v.m_offset + i) := by
    unfold is_int INT_MIN INT_MAX at *; omega
  unfold int_add
  rw [wrap_int_of_is_int hrep]
  exact ⟨hrep, rfl, by omega, by omega⟩

/-! ### `FieldEntryViewCore`: element accessors -/

/-- C4: each of `data(i)`, `data(i, j)`, `data(i, row, col)` returns what the core's
address computation returns for the record index `m_offset + i` (the `int` sum of the
source), the sub-indices passed through unchanged; and for a window that satisfies its
invariant over a core whose count is an `int`, and a window-relative index
`0 <= i < size`, that record index is the mathematical sum `offset + i`. -/
theorem data_delegates_to_core {IsConst : Bool} (v : FieldEntryViewCore IsConst)
    (i j row_index col_index : Int) :
    (v.data_i i = v.m_core.data_i (int_add v.offset i) ∧
      v.data_i_j i j = v.m_core.data_i_j (int_add v.offset i) j ∧
      v.data_i_row_col i row_index col_index =
        v.m_core.data_i_row_col (int_add v.offset i) row_index col_index) ∧
    (is_int v.total_count → v.in_range → 0 ≤ i → i < v.size →
      v.data_i i = v.m_core.data_i (v.offset + i) ∧
      v.data_i_j i j = v.m_core.data_i_j (v.offset + i) j ∧
      v.data_i_row_col i row_index col_index =
        v.m_core.data_i_row_col (v.offset + i) row_index col_index) := by
  refine ⟨⟨rfl, rfl, rfl⟩, fun hcount hv hi0 hi => ?_⟩
  have h := (in_range_index_in_bounds v hcount hv i hi0 hi).2.1
  unfold FieldEntryViewCore.data_i FieldEntryViewCore.data_i_j
    FieldEntryViewCore.data_i_row_col FieldEntryViewCore.offset
  rw [h]
  exact ⟨rfl, rfl, rfl⟩

/-- A scalar field of 10 records windowed to `offset = 3`, `size = 4`: the window-local
indices `0, 1, 2, 3` are translated to the records `3, 4, 5, 6`, and local index `1`
reads the address of record `4`. -/
theorem data_delegates_to_core_witness :
    (int_add 3 0 = 3 ∧ int_add 3 1 = 4 ∧ int_add 3 2 = 5 ∧ int_add 3 3 = 6) ∧
      (FieldEntryViewCore.mk (sample_core 10) 3 4 : FieldEntryViewCore false).data_i 1 =
        (sample_core 10).data_i 4 :=
  ⟨by decide,
    ((data_delegates_to_core
      (FieldEntryViewCore.mk (sample_core 10) 3 4 : FieldEntryViewCore false) 1 0 0 0).2
      (by decide) (by decide) (by decide) (by decide)).1⟩

/-- Distinct window-relative indices in `[0, size)` are translated to distinct record
indices whenever `size` is an `int`, whatever the offset: the `int` sum is taken modulo
`2^32` and the two indices differ by less than `2^31`. -/
theorem record_index_injective {IsConst : Bool} (v : FieldEntryViewCore IsConst)
    (hsize : is_int v.size) (i k : Int)
    (hi0 : 0 ≤ i) (hi : i < v.size) (hk0 : 0 ≤ k) (hk : k < v.size) (hik : i ≠ k) :
    int_add v.offset i ≠ int_add v.offset k := by
  unfold int_add
  rw [Ne, wrap_int_eq_iff]
  unfold is_int INT_MIN INT_MAX at hsize
  omega

/-- In every window (its size being an `int`), two distinct window-relative indices
`i != k` in `[0, size)` are translated to distinct record indices; hence, in a window
that satisfies its invariant over a core whose count is an `int`, whenever the core's
address computation maps distinct records of `[0, count)` to distinct addresses (for
the sub-indices in question), `data(i)` and `data(k)`, `data(i, j)` and `data(k, j)`,
`data(i, r, c)` and `data(k, r, c)` differ. -/
theorem distinct_indices_do_not_alias {IsConst : Bool} (v : FieldEntryViewCore IsConst)
    (hsize : is_int v.size) (i k : Int)
    (hi0 : 0 ≤ i) (hi : i < v.size) (hk0 : 0 ≤ k) (hk : k < v.size) (hik : i ≠ k) :
    int_add v.offset i ≠ int_add v.offset k ∧
    (is_int v.total_count → v.in_range →
      ((∀ a b : Int, 0 ≤ a → a < v.total_count → 0 ≤ b → b < v.total_count → a ≠ b →
          v.m_core.data_i a ≠ v.m_core.data_i b) →
        v.data_i i ≠ v.data_i k) ∧
      (∀ j : Int,
        (∀ a b : Int, 0 ≤ a → a < v.total_count → 0 ≤ b → b < v.total_count → a ≠ b →
          v.m_core.data_i_j a j ≠ v.m_core.data_i_j b j) →
        v.data_i_j i j ≠ v.data_i_j k j) ∧
      (∀ r c : Int,
        (∀ a b : Int, 0 ≤ a → a < v.total_count → 0 ≤ b → b < v.total_count → a ≠ b →
          v.m_core.data_i_row_col a r c ≠ v.m_core.data_i_row_col b r c) →
        v.data_i_row_col i r c ≠ v.data_i_row_col k r c)) := by
  have hne := record_index_injective v hsize i k hi0 hi hk0 hk hik
  refine ⟨hne, fun hcount hv => ?_⟩
  obtain ⟨_, _, hi1, hi2⟩ := in_range_index_in_bounds v hcount hv i hi0 hi
  obtain ⟨_, _, hk1, hk2⟩ := in_range_index_in_bounds v hcount hv k hk0 hk
  refine ⟨fun hinj => ?_, fun j hinj => ?_, fun r c hinj => ?_⟩
  · exact hinj _ _ hi1 hi2 hk1 hk2 hne
  · exact hinj _ _ hi1 hi2 hk1 hk2 hne
  · exact hinj _ _ hi1 hi2 hk1 hk2 hne

/-- In the window `offset = 3`, `size = 4` over 10 scalar records, the local indices `0`
and `1` are translated to distinct records and `data(0)`, `data(1)` differ. -/
theorem distinct_indices_do_not_alias_witness :
    int_add 3 0 ≠ int_add 3 1 ∧
      (FieldEntryViewCore.mk (sample_core 10) 3 4 : FieldEntryViewCore false).data_i 0 ≠
        (FieldEntryViewCore.mk (sample_core 10) 3 4 : FieldEntryViewCore false).data_i 1 :=
  have h := distinct_indices_do_not_alias
    (FieldEntryViewCore.mk (sample_core 10) 3 4 : FieldEntryViewCore false)
    (by decide) 0 1 (by decide) (by decide) (by decide) (by decide) (by decide)
  ⟨h.1, (h.2 (by decide) (by decide)).1 (fun a b ha0 _ hb0 _ hab => by
    show (4 * a).toNat ≠ (4 * b).toNat
    omega)⟩

/-- C5 as stated fails: it is not the case that for either value of `IsConst` `viewer()`
produces a mutable viewer; on a window with `IsConst = true` it produces the read-only
class. -/
theorem viewer_of_const_window_not_mutable :
    ¬ (∀ (IsConst : Bool) (v : FieldEntryViewCore IsConst),
        v.viewer.is_mutable = true ∧ v.cviewer.is_read_only = true) ∧
      (FieldEntryViewCore.mk (sample_core 10) 3 4 : FieldEntryViewCore true).viewer =
        Viewer.CFieldEntryViewer (sample_core 10) 3 4 := by
  refine ⟨fun h => ?_, rfl⟩
  have h1 := (h true (FieldEntryViewCore.mk (sample_core 10) 3 4)).1
  exact absurd h1 (by decide)

/-- C5, amended: `viewer()` produces a mutable viewer exactly when `IsConst` is false and
a read-only viewer when `IsConst` is true, `cviewer()` produces a read-only viewer for
either value of `IsConst`, and both viewers carry the window's core, `offset()` and
`size()`. -/
theorem viewer_cviewer_scope (IsConst : Bool) (v : FieldEntryViewCore IsConst) :
    v.viewer.is_mutable = !IsConst ∧ v.viewer.is_read_only = IsConst ∧
      v.cviewer.is_read_only = true ∧ v.cviewer.is_mutable = false ∧
      (v.viewer.core = v.m_core ∧ v.viewer.offset = v.offset ∧ v.viewer.size = v.size) ∧
      (v.cviewer.core = v.m_core ∧ v.cviewer.offset = v.offset ∧
        v.cviewer.size = v.size) := by
  cases IsConst <;> exact ⟨rfl, rfl, rfl, rfl, ⟨rfl, rfl, rfl⟩, ⟨rfl, rfl, rfl⟩⟩

/-! ### `read_only_viewer` / `read_write_viewer` -/

/-- C6: for every element type `t`, layout, and shape `M`, `N`, mapping
`FieldEntryView<T, Layout, M, N>` to its read-only form with `read_only_viewer` and the
result back with `read_write_viewer` yields `FieldEntryView<T, Layout, M, N>` again,
whatever the primary templates do; the read-only form is
`CFieldEntryView<T, Layout, M, N>`. -/
theorem read_write_viewer_read_only_viewer {T L : Type}
    (primary_ro primary_rw : ViewType T L → ViewType T L) (t : T) (Layout : L) (M N : Int) :
    read_only_viewer primary_ro (ViewType.FieldEntryView t Layout M N) =
        ViewType.CFieldEntryView t Layout M N ∧
      read_write_viewer primary_rw
          (read_only_viewer primary_ro (ViewType.FieldEntryView t Layout M N)) =
        ViewType.FieldEntryView t Layout M N :=
  ⟨rfl, rfl⟩

/-! ### `ParallelFor` constructors -/

/-- C8 as stated fails at `gridDim = 0`: `ParallelFor(0, 128)` leaves the very state of
`ParallelFor(128)`, and `ParallelFor(0, -1)` the very state of `ParallelFor()`. -/
theorem ctor_grid_block_zero_collides :
    ParallelFor.ctor_grid_block 0 128 0 0 = ParallelFor.ctor_block 128 0 0 ∧
      ParallelFor.ctor_grid_block 0 (-1) 0 0 = ParallelFor.ctor_auto 0 0 ∧
      ¬ (∀ (gridDim blockDim : Int) (s st : Nat) (blockDim1 : Int) (s1 st1 s0 st0 : Nat),
          ParallelFor.ctor_grid_block gridDim blockDim s st ≠
              ParallelFor.ctor_block blockDim1 s1 st1 ∧
            ParallelFor.ctor_grid_block gridDim blockDim s st ≠
              ParallelFor.ctor_auto s0 st0) := by
  refine ⟨rfl, rfl, fun h => ?_⟩
  exact (h 0 128 0 0 128 0 0 0 0).1 rfl

/-- C8, amended: for every `gridDim != 0` and every `blockDim`, the state left by
`ParallelFor(gridDim, blockDim)` differs from every state left by `ParallelFor()` and by
`ParallelFor(blockDim)`, whose `m_grid_dim` is `0`. -/
theorem ctor_grid_block_distinguishable (gridDim blockDim : Int) (s st : Nat)
    (hg : gridDim ≠ 0) (blockDim1 : Int) (s1 st1 s0 st0 : Nat) :
    ParallelFor.ctor_grid_block gridDim blockDim s st ≠
        ParallelFor.ctor_block blockDim1 s1 st1 ∧
      ParallelFor.ctor_grid_block gridDim blockDim s st ≠ ParallelFor.ctor_auto s0 st0 ∧
      (ParallelFor.ctor_grid_block gridDim blockDim s st).m_grid_dim ≠ 0 ∧
      (ParallelFor.ctor_block blockDim1 s1 st1).m_grid_dim = 0 ∧
      (ParallelFor.ctor_auto s0 st0).m_grid_dim = 0 := by
  refine ⟨fun h => ?_, fun h => ?_, hg, rfl, rfl⟩
  · exact hg (congrArg ParallelFor.m_grid_dim h)
  · exact hg (congrArg ParallelFor.m_grid_dim h)

/-- The states of `ParallelFor(4, 128)`, `ParallelFor(128)` and `ParallelFor()` differ. -/
theorem ctor_grid_block_distinguishable_witness :
    (4 : Int) ≠ 0 ∧
      ParallelFor.ctor_grid_block 4 128 0 0 ≠ ParallelFor.ctor_block 128 0 0 ∧
      ParallelFor.ctor_grid_block 4 128 0 0 ≠ ParallelFor.ctor_auto 0 0 :=
  have h := ctor_grid_block_distinguishable 4 128 0 0 (by decide) 128 0 0 0 0
  ⟨by decide, h.1, h.2.1⟩

/-! ### Exact-cover launch -/

/-- Enumerating the threads block by block, each with global id
`blockDim * blockIdx + threadIdx`, enumerates the global ids `0, ..., blockDim * gridDim - 1`
in order. -/
theorem flatMap_blocks_threads (k : Nat → List Int) (B G : Nat) :
    ((List.range G).flatMap fun b => (List.range B).flatMap fun t => k (B * b + t)) =
      (List.range (B * G)).flatMap k := by
  induction G with
  | zero => simp
  | succ G ih =>
    rw [List.range_succ, List.flatMap_append, ih, Nat.mul_succ, List.range_add,
      List.flatMap_append]
    simp [List.flatMap_map]

/-- Among the global ids `0, ..., M - 1`, the guard `g < N` lets through exactly
`0, ..., min M N - 1`, each once and in order. -/
theorem flatMap_guard_range (N : Int) (M : Nat) :
    ((List.range M).flatMap fun g =>
        if ((g : Nat) : Int) < N then [((g : Nat) : Int)] else []) =
      (List.range (min M N.toNat)).map fun n : Nat => (n : Int) := by
  induction M with
  | zero => simp
  | succ M ih =>
    rw [List.range_succ, List.flatMap_append, ih]
    by_cases h : (M : Int) < N
    · have h1 : min M N.toNat = M := by omega
      have h2 : min (M + 1) N.toNat = M + 1 := by omega
      rw [h1, h2, List.range_succ]
      simp [h]
    · have h1 : min M N.toNat = N.toNat := by omega
      have h2 : min (M + 1) N.toNat = N.toNat := by omega
      rw [h1, h2]
      simp [h]

/-- A launch of `gridDim` blocks of `blockDim` threads invokes the callable on
`0, ..., min (blockDim * gridDim) count - 1`, each once. -/
theorem launch_parallel_for_kernel_eq (gridDim blockDim count : Int) :
    launch_parallel_for_kernel gridDim blockDim count =
      (List.range (min (blockDim.toNat * gridDim.toNat) count.toNat)).map
        fun n : Nat => (n : Int) := by
  unfold launch_parallel_for_kernel parallel_for_kernel
  rw [← flatMap_guard_range]
  exact flatMap_blocks_threads
    (fun g => if ((g : Nat) : Int) < count then [((g : Nat) : Int)] else [])
    blockDim.toNat gridDim.toNat

/-- Exact-cover coverage when `count + block_dim - 1` is representable as an `int`: for
`count >= 0` and `block_dim >= 1`, the launch of `round_up_blocks(count, block_dim)`
blocks of `block_dim` threads invokes the callable on `0, ..., count - 1`, each exactly
once (no invocation for `count = 0`). -/
theorem exact_cover_invocations_eq (count block_dim : Int) (hc : 0 ≤ count)
    (hb : 1 ≤ block_dim) (hsum : count + block_dim - 1 ≤ INT_MAX) :
    exact_cover_invocations count block_dim =
        (List.range count.toNat).map (fun n : Nat => (n : Int)) ∧
      (exact_cover_invocations count block_dim : Multiset Int) =
        (Multiset.range count.toNat).map (fun n : Nat => (n : Int)) := by
  have hlist : exact_cover_invocations count block_dim =
      (List.range count.toNat).map (fun n : Nat => (n : Int)) := by
    unfold exact_cover_invocations
    rw [launch_parallel_for_kernel_eq, round_up_blocks_eq_ediv count block_dim hc hb hsum]
    have hq0 : 0 ≤ (count + block_dim - 1) / block_dim :=
      Int.ediv_nonneg (by omega) (by omega)
    have hdm := Int.ediv_add_emod (count + block_dim - 1) block_dim
    have hm1 := Int.emod_lt_of_pos (count + block_dim - 1) (by omega : (0 : Int) < block_dim)
    have hcover : count ≤ block_dim * ((count + block_dim - 1) / block_dim) := by omega
    have hnat : count.toNat ≤ block_dim.toNat * ((count + block_dim - 1) / block_dim).toNat := by
      have h1 : ((block_dim.toNat * ((count + block_dim - 1) / block_dim).toNat : Nat) : Int) =
          block_dim * ((count + block_dim - 1) / block_dim) := by
        rw [Nat.cast_mul, Int.toNat_of_nonneg (by omega : 0 ≤ block_dim),
          Int.toNat_of_nonneg hq0]
      omega
    rw [Nat.min_eq_right hnat]
  refine ⟨hlist, ?_⟩
  rw [hlist]
  rfl

/-- C7, at `count = 2147483647` (`INT_MAX`), `block_dim = 256`: `round_up_blocks` returns
the negative grid size `-8388607`, the launch has no block and the callable is never
invoked, whereas `{0, ..., count - 1}` has `2147483647` elements. -/
theorem exact_cover_invocations_int_max_256 :
    (0 : Int) ≤ 2147483647 ∧ (1 : Int) ≤ 256 ∧
      ParallelFor.round_up_blocks 2147483647 256 = -8388607 ∧
      exact_cover_invocations 2147483647 256 = [] ∧
      (exact_cover_invocations 2147483647 256 : Multiset Int) ≠
        (Multiset.range (2147483647 : Int).toNat).map (fun n : Nat => (n : Int)) := by
  have hgrid : ParallelFor.round_up_blocks 2147483647 256 = -8388607 := by decide
  have hnil : exact_cover_invocations 2147483647 256 = [] := by
    unfold exact_cover_invocations launch_parallel_for_kernel
    rw [hgrid]
    rfl
  refine ⟨by decide, by decide, hgrid, hnil, fun h => ?_⟩
  have hcard := congrArg Multiset.card h
  rw [hnil, Multiset.card_map, Multiset.card_range, Multiset.coe_card, List.length_nil]
    at hcard
  exact absurd hcard (by decide)

end muda
